import Mathlib

/-!
Verification of the pyinfra-carryall connectors
(`dump/connectors/incus.py` and `dump/connectors/microsoft_azure.py`).

The Python code is shallowly embedded: Python strings are modelled as
`List Char`, dictionaries as insertion-ordered association lists, fallible
code as `Except`, and the external CLI / Azure client / local executor as
opaque function parameters.  Each definition mirrors one Python function or
statement group; the doc comment of each definition names its source.
-/

namespace Carryall

/-! ## Python string primitives (modelled on CPython `str` semantics) -/

/-- Python `value.split(sep)` for a one-character separator.
    Note `"".split(",") = [""]`: the result list is never empty. -/
def pySplitOn (sep : Char) : List Char → List (List Char)
  | [] => [[]]
  | c :: rest =>
    match pySplitOn sep rest with
    | [] => [[]]
    | h :: t => if c = sep then [] :: h :: t else (c :: h) :: t

/-- Python `value.replace("'", "''")`: every single-quote character is doubled. -/
def escapeQuotes : List Char → List Char
  | [] => []
  | c :: rest =>
    if c = '\'' then '\'' :: '\'' :: escapeQuotes rest else c :: escapeQuotes rest

/-- Python `sep.join(parts)`. -/
def pyJoin (sep : List Char) : List (List Char) → List Char
  | [] => []
  | [x] => x
  | x :: xs => x ++ sep ++ pyJoin sep xs

/-- Python `s.partition(sep)[::2]` for a one-character separator: the text
    before and after the FIRST occurrence of `sep`; when `sep` is absent the
    result is `(s, "")`. -/
def pyPartition2 (sep : Char) : List Char → List Char × List Char
  | [] => ([], [])
  | c :: rest =>
    if c = sep then ([], rest)
    else
      let p := pyPartition2 sep rest
      (c :: p.1, p.2)

/-- Helper for `rpartition`: `some (before, after)` at the LAST occurrence of
    `sep`, `none` when `sep` does not occur. -/
def splitLast (sep : Char) : List Char → Option (List Char × List Char)
  | [] => none
  | c :: rest =>
    match splitLast sep rest with
    | some (b, a) => some (c :: b, a)
    | none => if c = sep then some ([], rest) else none

/-- Python `s.rpartition(sep)[::2]` for a one-character separator: the text
    before and after the LAST occurrence of `sep`; when `sep` is absent the
    result is `("", s)`. -/
def pyRPartition2 (sep : Char) (s : List Char) : List Char × List Char :=
  match splitLast sep s with
  | some (b, a) => (b, a)
  | none => ([], s)

/-- Python `s.removeprefix(pre)`. -/
def pyRemoveprefix (pre s : List Char) : List Char :=
  if pre.isPrefixOf s then s.drop pre.length else s

/-- Python `str.isalpha()`: true iff the string is non-empty and every
    character is a letter.  CPython's per-character letter test consults the
    Unicode character database — an external resource the program consumes —
    so the per-character classifier is an opaque parameter `letter`;
    `str.isalpha()` is exactly "non-empty and every character classifies as a
    letter".  Any conformant classifier (in particular CPython's) returns
    `true` on the ASCII letters, the fragment the connector's own call sites
    use. -/
def pyIsAlpha (letter : Char → Bool) (s : List Char) : Bool :=
  !s.isEmpty && s.all letter

/-! ## Incus / LXD connector (`dump/connectors/incus.py`) -/

/-- One row of `incus list --all-projects -c nc -f json`: an object with a
    `name` and a `devices` mapping (device name → property mapping, where an
    IPv4 address may appear under the key `"ipv4.address"`).  `devices == none`
    models a row without a `devices` key. -/
structure IncusRow where
  name : List Char
  devices : Option (List (List Char × List (List Char × List Char)))
deriving DecidableEq, Repr

/-- `row.get("devices", "")` followed by `for dev in ...`: when the key is
    absent the loop iterates the empty string (zero iterations); when present
    it iterates the dict, which in Python yields its KEYS, so each `dev` is the
    device NAME string, not the property mapping. -/
def devicesLoopItems (row : IncusRow) : List (List Char) :=
  match row.devices with
  | none => []
  | some devs => devs.map Prod.fst

/-- `getattr(dev, "ipv4.address", None)` where `dev` is a Python `str` (a key
    of the `devices` dict).  CPython attribute lookup on a `str` consults the
    type's attribute table, whose entries are method names (`upper`, `split`,
    ...); no `str` attribute is named `"ipv4.address"` (no attribute name can
    even contain a dot), and dict entries are not attributes of their keys, so
    the lookup always falls back to the supplied default `None`. -/
def strGetattrIpv4Address (_dev : List Char) : Option (List Char) :=
  none

/-- The device loop of `make_names_data` (incus.py:116-119): walk the loop
    items in CLI order, return the first `getattr(dev, "ipv4.address", None)`
    that is not `None`. -/
def firstIpv4 : List (List Char) → Option (List Char)
  | [] => none
  | dev :: rest =>
    match strGetattrIpv4Address dev with
    | some address => some address
    | none => firstIpv4 rest

/-- The per-row `data` dict of `make_names_data` (incus.py:114-119):
    `{"<cmd>_identifier": remote + name}` plus `ssh_hostname` when the device
    loop finds an address. -/
def incusRowData (cmd remote : List Char) (row : IncusRow) :
    List (List Char × List Char) :=
  [(cmd ++ "_identifier".data, remote ++ row.name)] ++
    match firstIpv4 (devicesLoopItems row) with
    | some address => [("ssh_hostname".data, address)]
    | none => []

/-- One inventory record yielded by discovery: `(identifier, attribute map,
    group list)`. -/
structure InventoryRecord where
  identifier : List Char
  data : List (List Char × List Char)
  groups : List (List Char)
deriving DecidableEq, Repr

/-- `make_names_data` (incus.py:86-124).  `name` is the optional
    `[<remote>:]<instance>` pattern; `rows` is the JSON array printed by the
    CLI list subcommand (an opaque input here).  Lines 99-104 compute
    `remote_instance`; line 106-108 split it with `rpartition(":")` and
    re-append the delimiter to a non-empty remote; lines 114-124 yield one
    record per row. -/
def make_names_data (cmd : List Char) (name : Option (List Char))
    (rows : List IncusRow) : List InventoryRecord :=
  let remote_instance : List Char :=
    match name with
    | none => []
    | some n => if n.contains '/' then (pyPartition2 '/' n).2 else n
  let ri := pyRPartition2 ':' remote_instance
  let remote := if ri.1 ≠ [] then ri.1 ++ [':'] else ri.1
  rows.map fun row =>
    { identifier := "@".data ++ cmd ++ "/".data ++ remote ++ row.name
      data := incusRowData cmd remote row
      groups := ["@".data ++ cmd] }

/-- The `[<remote>:]<instance>` split of `make_names_data` (incus.py:106-108):
    `rpartition(":")` then re-append `":"` to a non-empty remote. -/
def incusSplitTarget (remote_instance : List Char) : List Char × List Char :=
  let ri := pyRPartition2 ':' remote_instance
  (if ri.1 ≠ [] then ri.1 ++ [':'] else ri.1, ri.2)

/-- Captured output of a command run by the local executor. -/
structure CmdOutput where
  stdout : List Char
  stderr : List Char
deriving DecidableEq, Repr

/-- The argv built by `IncusConnector.run_shell_command` (incus.py:138-151):
    `<cli> exec <-t|-T> <instance> -- <shell> -c <quoted command>`. -/
def execArgv (cmd : List Char) (getPty : Bool) (inst shellName quoted : List Char) :
    List (List Char) :=
  [cmd, "exec".data, if getPty then "-t".data else "-T".data, inst,
   "--".data, shellName, "-c".data, quoted]

/-- The fixed interpreter of the connector (`shell = "sh"`, incus.py:64). -/
def incusShell : List Char := "sh".data

/-- `IncusConnector.run_shell_command` (incus.py:127-155).  `localRun` is the
    opaque `LocalConnector.run_shell_command`; `quote` renders
    `QuoteString`; `mkUnix` is `make_unix_command_for_host` applied to the
    logical command and its arguments.  The connector builds the exec argv and
    hands the result of the local executor back unchanged. -/
def run_shell_command
    (localRun : List (List Char) → Bool → Bool → Bool × CmdOutput)
    (quote mkUnix : List Char → List Char)
    (cmd inst command : List Char)
    (getPty printOutput printInput : Bool) : Bool × CmdOutput :=
  localRun (execArgv cmd getPty inst incusShell (quote (mkUnix command)))
    printOutput printInput

/-! ### File transfer (`put_file`, `get_file`)

The transfer methods are modelled as functions from an input record (which
fixes the behaviour of the opaque collaborators: the kind of source, whether
the stream read raises, whether the CLI subcommand succeeds) to a result
together with a trace of the externally visible events, in program order. -/

/-- Externally visible events of a transfer call. -/
inductive TransferEv
  | createTemp
  | unlinkTemp
  | runPush
  | runPull
  | openDest
  | writeDest
deriving DecidableEq, Repr

/-- A propagating Python exception of the transfer methods. -/
inductive PyExn
  | ioError (stderr : List Char)
  | sourceReadError
  | destOpenError
deriving DecidableEq, Repr

/-- Behaviour of the collaborators of one `put_file` call. -/
structure PutInput where
  /-- `isfile(filename_or_io)` held and `realpath(..., strict=True)` succeeded
      (incus.py:167-170); otherwise `filename = ""` selects staging. -/
  srcIsRegularFile : Bool
  /-- `get_file_io(filename_or_io)` raises on entry (before the temp file
      exists). -/
  openSrcRaises : Bool
  /-- `file_io.read()` / `temporary.write(...)` raises while staging. -/
  writeRaises : Bool
  /-- `status` returned by the CLI `file push` via the local executor. -/
  pushOk : Bool
  /-- captured stderr of the push. -/
  pushStderr : List Char
deriving DecidableEq, Repr

/-- The `try:` body of `put_file` (incus.py:172-194): stage non-regular
    sources into a `NamedTemporaryFile(delete=False)`, then run
    `<cli> file push`.  Returns the body's outcome (`status`, or the
    propagating exception), its events, and whether `temporary` was assigned
    (i.e. whether a staging file now exists on disk). -/
def putTryBody (i : PutInput) : Except PyExn Bool × List TransferEv × Bool :=
  if i.srcIsRegularFile then
    (.ok i.pushOk, [.runPush], false)
  else if i.openSrcRaises then
    (.error .sourceReadError, [], false)
  else if i.writeRaises then
    (.error .sourceReadError, [.createTemp], true)
  else
    (.ok i.pushOk, [.createTemp, .runPush], true)

/-- `IncusConnector.put_file` (incus.py:157-208): run the try body, then the
    `finally:` clause `if temporary is not None: unlink(temporary.name)`
    (incus.py:195-197) on every exit path, then `if not status: raise
    IOError(output.stderr)` (incus.py:199-200). -/
def put_file (i : PutInput) : Except PyExn Bool × List TransferEv :=
  let body := putTryBody i
  let evs := body.2.1 ++ if body.2.2 then [.unlinkTemp] else []
  match body.1 with
  | .error e => (.error e, evs)
  | .ok status =>
    if status then (.ok status, evs) else (.error (.ioError i.pushStderr), evs)

/-- Behaviour of the collaborators of one `get_file` call. -/
structure GetInput where
  /-- `status` returned by the CLI `file pull` via the local executor. -/
  pullOk : Bool
  /-- captured stderr of the pull. -/
  pullStderr : List Char
  /-- bytes sitting in the staging file after the pull attempt (possibly
      empty, in particular when the pull failed). -/
  staged : List Char
  /-- `get_file_io(filename_or_io, "wb")` raises on entry. -/
  openDestRaises : Bool
deriving DecidableEq, Repr

/-- The body of `with NamedTemporaryFile() as temporary:` in `get_file`
    (incus.py:221-234): run `<cli> file pull` into the staging file, then open
    the caller's destination for binary writing and copy the staging bytes
    into it.  Returns the outcome, the events, and the bytes written to the
    destination (`none` when it was never opened). -/
def getWithBody (i : GetInput) : Except PyExn Bool × List TransferEv × Option (List Char) :=
  if i.openDestRaises then
    (.error .destOpenError, [.runPull], none)
  else
    (.ok i.pullOk, [.runPull, .openDest, .writeDest], some i.staged)

/-- `IncusConnector.get_file` (incus.py:210-245): the `with
    NamedTemporaryFile()` block creates the staging file on entry and deletes
    it on exit on every path (CPython deletes a default `NamedTemporaryFile`
    when it is closed by `__exit__`), after which `if not status: raise
    IOError(output.stderr)` (incus.py:236-237). -/
def get_file (i : GetInput) : Except PyExn Bool × List TransferEv × Option (List Char) :=
  let body := getWithBody i
  let evs := [TransferEv.createTemp] ++ body.2.1 ++ [TransferEv.unlinkTemp]
  match body.1 with
  | .error e => (.error e, evs, body.2.2)
  | .ok status =>
    if status then (.ok status, evs, body.2.2)
    else (.error (.ioError i.pullStderr), evs, body.2.2)

/-- A staging file created by the call remains after it iff some `createTemp`
    lacks a matching `unlinkTemp`. -/
def stagingRemains (evs : List TransferEv) : Bool :=
  evs.count .createTemp ≠ evs.count .unlinkTemp

/-! ## Azure connector (`dump/connectors/microsoft_azure.py`) -/

/-- `AzureConnector.handles_execution` (microsoft_azure.py:25). -/
def azureHandlesExecution : Bool := false

/-- The exception raised by the three unimplemented primitives. -/
inductive PyNotImplemented
  | notImplementedError
deriving DecidableEq, Repr

/-- `AzureConnector.get_file` (microsoft_azure.py:27-29): `raise
    NotImplementedError` whatever the positional and keyword arguments are. -/
def azure_get_file {α β : Type} (_pos : List α) (_kw : List (List Char × β)) :
    Except PyNotImplemented Bool :=
  .error .notImplementedError

/-- `AzureConnector.put_file` (microsoft_azure.py:31-33). -/
def azure_put_file {α β : Type} (_pos : List α) (_kw : List (List Char × β)) :
    Except PyNotImplemented Bool :=
  .error .notImplementedError

/-- `AzureConnector.run_shell_command` (microsoft_azure.py:35-37). -/
def azure_run_shell_command {α β : Type} (_pos : List α) (_kw : List (List Char × β)) :
    Except PyNotImplemented (Bool × CmdOutput) :=
  .error .notImplementedError

/-! ### Query building (`AzureConnector.query`) -/

/-- The membership clause of one filter item (microsoft_azure.py:57-59):
    `f"| where {key} in~ ('{...}')"` where the elision joins with `"','"` the
    non-empty comma-separated elements of the quote-doubled value. -/
def whereClause (key value : List Char) : List Char :=
  "| where ".data ++ key ++ " in~ ('".data ++
    pyJoin "','".data ((pySplitOn ',' (escapeQuotes value)).filter (· ≠ [])) ++
    "')".data

/-- The filter loop of `AzureConnector.query` (microsoft_azure.py:49-59):
    walk the mapping in insertion order; a key failing `str.isalpha()` (with
    respect to the opaque letter classifier) raises `ValueError(key)`; an item
    with a falsy (empty) value contributes no clause. -/
def buildClauses (letter : Char → Bool) :
    List (List Char × List Char) → Except (List Char) (List (List Char))
  | [] => .ok []
  | (key, value) :: rest =>
    if pyIsAlpha letter key = false then .error key
    else
      match buildClauses letter rest with
      | .error e => .error e
      | .ok tail => .ok (if value.isEmpty then tail else whereClause key value :: tail)

/-- The fixed head of the dedented Resource Graph query
    (microsoft_azure.py:62-67), up to and including the newline before the
    spliced `{" ".join(additional_where)}`. -/
def kqlPrefix : String :=
  "Resources\n| where type =~ 'microsoft.compute/VirtualMachines'\n| where properties.storageProfile.osDisk.osType == \"Linux\"\n| mv-expand netIf = properties.networkProfile.networkInterfaces\n"

/-- The fixed tail of the dedented query (microsoft_azure.py:68-77), from the
    newline after the spliced clauses to the end.  The line-continuation
    backslash on the source's last line elides the newline before the closing
    triple quote, so that line's 12-space indentation survives as trailing
    spaces of the final line; they are not leading whitespace, so `dedent`
    keeps them. -/
def kqlSuffix : String :=
  "\n| project resourceGroup, name, nicResourceId = tostring(netIf.id), location, zones\n| join kind=leftouter (\n  Resources\n  | where type =~ 'microsoft.network/NetworkInterfaces'\n  | mv-expand ipConf = properties.ipConfigurations\n  | where tobool(ipConf.properties.primary) == true\n  | project nicResourceId = id, privateIP = tostring(ipConf.properties.privateIPAddress)\n  ) on nicResourceId\n| project group = resourceGroup, hostname = name, ip = privateIP, location, zones            "

/-- `AzureConnector.query` (microsoft_azure.py:39-79): validate and render the
    filter clauses, then splice their `" ".join` into the fixed query text. -/
def query (letter : Char → Bool) (w : List (List Char × List Char)) :
    Except (List Char) (List Char) :=
  match buildClauses letter w with
  | .error e => .error e
  | .ok clauses => .ok (kqlPrefix.data ++ pyJoin " ".data clauses ++ kqlSuffix.data)

/-! ### Fetch, reshape and the LRU cache (`AzureConnector._azure_vm_list`) -/

/-- One row of the Resource Graph response (the projection fixed at
    microsoft_azure.py:77). -/
structure AzRow where
  group : List Char
  hostname : List Char
  ip : List Char
  location : List Char
  zones : List Char
deriving DecidableEq, Repr

/-- The attribute dict built for one row (microsoft_azure.py:110-117). -/
def azRowAttrs (row : AzRow) : List (List Char × List Char) :=
  [("ssh_hostname".data, row.ip), ("location".data, row.location),
   ("zones".data, row.zones), ("group".data, row.group)]

/-- The grouped inventory: group name → hosts in insertion order. -/
abbrev AzInventory := List (List Char × List (List Char × List (List Char × List Char)))

/-- `data[group] += [...]` with dict insertion-order semantics
    (microsoft_azure.py:100-118): append to an existing group's list, or add
    the group at the end. -/
def upsertGroup (inv : AzInventory) (g : List Char)
    (entry : List Char × List (List Char × List Char)) : AzInventory :=
  match inv with
  | [] => [(g, [entry])]
  | (g', es) :: rest =>
    if g' = g then (g', es ++ [entry]) :: rest else (g', es) :: upsertGroup rest g entry

/-- The row loop of `_azure_vm_list` (microsoft_azure.py:100-118). -/
def azureReshape (rows : List AzRow) : AzInventory :=
  rows.foldl (fun d row => upsertGroup d row.group (row.hostname, azRowAttrs row)) []

/-- One uncached evaluation of the `_azure_vm_list` body
    (microsoft_azure.py:90-120): build the query from the keyword arguments,
    submit it to the opaque client (`api` maps the query text to the response
    rows), reshape the rows.  A `ValueError` from `query` propagates before
    the client is ever invoked. -/
def azureVmListOnce (letter : Char → Bool) (api : List Char → List AzRow)
    (w : List (List Char × List Char)) : Except (List Char) AzInventory :=
  match query letter w with
  | .error e => .error e
  | .ok q => .ok (azureReshape (api q))

/-- A cache key of `_azure_vm_list`: the values of the two keyword arguments
    of the only call site, `(resourceGroup=..., name=...)`
    (microsoft_azure.py:145); `functools.lru_cache` keys on the full keyword
    mapping in call order. -/
abbrev AzKey := List Char × List Char

/-- The `_azure_vm_list` body at its call signature
    (microsoft_azure.py:145): the keyword names are the fixed ASCII strings
    `resourceGroup` and `name`.  Every conformant letter classifier — in
    particular CPython's Unicode one — accepts both, and the produced query
    text does not depend on the classifier, so the body is evaluated with the
    ASCII classifier `Char.isAlpha` without loss (lemma
    `azureVmListOnce_letter_agnostic` below). -/
def azureVmListBody (api : List Char → List AzRow) (k : AzKey) :
    Except (List Char) AzInventory :=
  azureVmListOnce Char.isAlpha api [("resourceGroup".data, k.1), ("name".data, k.2)]

/-- `AzureConnector._parse_name` (microsoft_azure.py:122-137). -/
def parse_name (name : Option (List Char)) : List Char × List Char :=
  match name with
  | none => ([], [])
  | some n =>
    if n.contains '/' then pyPartition2 '/' n
    else ([], pyRemoveprefix "/".data n)

/-! ## Well-formedness of the generated membership clause

Specification-side definitions used to state C5: a string is well-escaped
when its single quotes occur only as the doubled escape `''`, and the member
set rendering `'…','…'` is well-formed when a scanner that reads quoted
literals (with `''` as the in-literal escape) accepts it. -/

/-- Every single quote occurs as part of an immediately adjacent pair `''`
    (the KQL escape): no unescaped quote. -/
def wellEscaped : List Char → Bool
  | [] => true
  | c :: rest =>
    if c = '\'' then
      match rest with
      | [] => false
      | c2 :: rest2 => if c2 = '\'' then wellEscaped rest2 else false
    else wellEscaped rest

/-- Scanner for a rendered member set `'…','…'`.  With `inLit = false` the
    next character must open a literal; with `inLit = true` the scanner is
    inside a literal, where `''` is an escaped quote and a lone quote closes
    the literal and must be followed by a comma (and the next literal) or by
    the end of the input. -/
def scanMembers (inLit : Bool) (s : List Char) : Bool :=
  match inLit, s with
  | false, [] => false
  | false, c :: rest => if c = '\'' then scanMembers true rest else false
  | true, [] => false
  | true, c :: rest =>
    if c = '\'' then
      match rest with
      | [] => true
      | c2 :: rest2 =>
        if c2 = '\'' then scanMembers true rest2
        else if c2 = ',' then scanMembers false rest2
        else false
    else scanMembers true rest

/-- The member list of the clause for `value`: the escaped non-empty
    comma-separated elements, in order (microsoft_azure.py:58). -/
def clauseMembers (value : List Char) : List (List Char) :=
  ((pySplitOn ',' value).filter (· ≠ [])).map escapeQuotes

/-- Number of single-quote characters in a string. -/
def countQuotes : List Char → Nat
  | [] => 0
  | c :: rest => (if c = '\'' then 1 else 0) + countQuotes rest

example : pySplitOn ',' "a,'b".data = ["a".data, "'b".data] := by decide
example : pySplitOn ',' [] = [[]] := by decide
example : escapeQuotes "a'b".data = "a''b".data := by decide
example : pyPartition2 '/' "ab/cd/e".data = ("ab".data, "cd/e".data) := by decide
example : pyRPartition2 ':' "r:a:b".data = ("r:a".data, "b".data) := by decide
example : pyRPartition2 ':' "abc".data = ([], "abc".data) := by decide
example : pyJoin "','".data ["a".data, "b".data] = "a','b".data := by decide
example : pyIsAlpha Char.isAlpha "abc".data = true ∧
    pyIsAlpha Char.isAlpha [] = false := by decide
example : wellEscaped "a''b".data = true ∧ wellEscaped "a'b".data = false := by decide
example : scanMembers false "'a','b''c'".data = true := by decide
example : scanMembers false "'a','b'c'".data = false := by decide

/-! ## Supporting lemmas -/

theorem pyPartition2_of_mem {sep : Char} {s : List Char} (h : sep ∈ s) :
    s = (pyPartition2 sep s).1 ++ sep :: (pyPartition2 sep s).2 ∧
    sep ∉ (pyPartition2 sep s).1 := by
  induction s with
  | nil => cases h
  | cons c rest ih =>
    by_cases hc : c = sep
    · subst hc
      simp [pyPartition2]
    · have hmem : sep ∈ rest := by
        rcases List.mem_cons.mp h with h1 | h1
        · exact absurd h1.symm hc
        · exact h1
      obtain ⟨h1, h2⟩ := ih hmem
      refine ⟨?_, ?_⟩
      · simp only [pyPartition2, if_neg hc]
        exact congrArg (c :: ·) h1
      · simp only [pyPartition2, if_neg hc]
        intro hmem'
        rcases List.mem_cons.mp hmem' with h3 | h3
        · exact hc h3.symm
        · exact h2 h3

theorem pyPartition2_of_not_mem {sep : Char} {s : List Char} (h : sep ∉ s) :
    pyPartition2 sep s = (s, []) := by
  induction s with
  | nil => rfl
  | cons c rest ih =>
    have hc : c ≠ sep := fun hc => h (hc ▸ List.mem_cons_self c rest)
    have hmem : sep ∉ rest := fun hm => h (List.mem_cons_of_mem c hm)
    simp only [pyPartition2, if_neg hc, ih hmem]

theorem splitLast_isSome_iff {sep : Char} {s : List Char} :
    (splitLast sep s).isSome = true ↔ sep ∈ s := by
  induction s with
  | nil => simp [splitLast]
  | cons c rest ih =>
    cases hs : splitLast sep rest with
    | some p =>
      have : sep ∈ rest := ih.mp (by simp [hs])
      simp [splitLast, hs, List.mem_cons, this]
    | none =>
      have hnm : sep ∉ rest := fun hm => by
        have h2 := ih.mpr hm
        rw [hs] at h2
        simp at h2
      by_cases hc : c = sep
      · simp [splitLast, hs, hc]
      · have : ¬sep = c := fun h => hc h.symm
        simp [splitLast, hs, hc, List.mem_cons, this, hnm]

theorem splitLast_eq_some {sep : Char} {s b a : List Char}
    (h : splitLast sep s = some (b, a)) : s = b ++ sep :: a ∧ sep ∉ a := by
  induction s generalizing b a with
  | nil => simp [splitLast] at h
  | cons c rest ih =>
    cases hs : splitLast sep rest with
    | some p =>
      obtain ⟨b', a'⟩ := p
      have h' : c :: b' = b ∧ a' = a := by
        simpa [splitLast, hs] using h
      obtain ⟨hb, ha⟩ := h'
      obtain ⟨h1, h2⟩ := ih hs
      subst hb; subst ha
      exact ⟨by rw [h1]; rfl, h2⟩
    | none =>
      have hnm : sep ∉ rest := fun hm => by
        have := splitLast_isSome_iff.mpr hm
        simp [hs] at this
      by_cases hc : c = sep
      · have h' : ([] : List Char) = b ∧ rest = a := by
          simpa [splitLast, hs, hc] using h
        obtain ⟨hb, ha⟩ := h'
        subst hc; subst ha
        exact ⟨by simp [← hb], hnm⟩
      · simp [splitLast, hs, hc] at h

theorem pyRPartition2_of_mem {sep : Char} {s : List Char} (h : sep ∈ s) :
    s = (pyRPartition2 sep s).1 ++ sep :: (pyRPartition2 sep s).2 ∧
    sep ∉ (pyRPartition2 sep s).2 := by
  have hsome := splitLast_isSome_iff.mpr h
  cases hs : splitLast sep s with
  | none => simp [hs] at hsome
  | some p =>
    obtain ⟨b, a⟩ := p
    obtain ⟨h1, h2⟩ := splitLast_eq_some hs
    simp [pyRPartition2, hs]
    exact ⟨h1, h2⟩

theorem pyRPartition2_of_not_mem {sep : Char} {s : List Char} (h : sep ∉ s) :
    pyRPartition2 sep s = ([], s) := by
  cases hs : splitLast sep s with
  | none => simp [pyRPartition2, hs]
  | some p =>
    have : (splitLast sep s).isSome = true := by simp [hs]
    exact absurd (splitLast_isSome_iff.mp this) h

theorem buildClauses_ok {letter : Char → Bool} {w : List (List Char × List Char)}
    (h : ∀ kv ∈ w, pyIsAlpha letter kv.1 = true) :
    ∃ cs, buildClauses letter w = .ok cs := by
  induction w with
  | nil => exact ⟨[], rfl⟩
  | cons kv rest ih =>
    obtain ⟨key, value⟩ := kv
    have hk : pyIsAlpha letter key = true := h (key, value) (List.mem_cons_self _ _)
    obtain ⟨cs, hcs⟩ := ih fun p hp => h p (List.mem_cons_of_mem _ hp)
    refine ⟨if value.isEmpty then cs else whereClause key value :: cs, ?_⟩
    simp [buildClauses, hk, hcs]

theorem pyIsAlpha_of_ascii {letter : Char → Bool}
    (hletter : ∀ c : Char, c.isAlpha = true → letter c = true) {s : List Char}
    (hs : pyIsAlpha Char.isAlpha s = true) : pyIsAlpha letter s = true := by
  unfold pyIsAlpha at hs ⊢
  simp only [Bool.and_eq_true, List.all_eq_true] at hs ⊢
  exact ⟨hs.1, fun c hc => hletter c (hs.2 c hc)⟩

theorem buildClauses_fixed_keys {letter : Char → Bool}
    (hletter : ∀ c : Char, c.isAlpha = true → letter c = true) (v1 v2 : List Char) :
    buildClauses letter [("resourceGroup".data, v1), ("name".data, v2)] =
      buildClauses Char.isAlpha [("resourceGroup".data, v1), ("name".data, v2)] := by
  have h1a : pyIsAlpha Char.isAlpha "resourceGroup".data = true := by decide
  have h2a : pyIsAlpha Char.isAlpha "name".data = true := by decide
  have h1 : pyIsAlpha letter "resourceGroup".data = true := pyIsAlpha_of_ascii hletter h1a
  have h2 : pyIsAlpha letter "name".data = true := pyIsAlpha_of_ascii hletter h2a
  simp [buildClauses, h1, h2, h1a, h2a]

theorem azureVmListOnce_letter_agnostic {letter : Char → Bool}
    (hletter : ∀ c : Char, c.isAlpha = true → letter c = true)
    (api : List Char → List AzRow) (k : AzKey) :
    azureVmListOnce letter api [("resourceGroup".data, k.1), ("name".data, k.2)] =
      azureVmListBody api k := by
  unfold azureVmListBody azureVmListOnce query
  rw [buildClauses_fixed_keys hletter]

theorem azureVmListBody_isOk (api : List Char → List AzRow) (k : AzKey) :
    ∃ inv, azureVmListBody api k = .ok inv := by
  have hkeys : ∀ kv ∈ [("resourceGroup".data, k.1), ("name".data, k.2)],
      pyIsAlpha Char.isAlpha kv.1 = true := by
    intro kv hkv
    rcases List.mem_cons.mp hkv with h | h
    · rw [h]
      show pyIsAlpha Char.isAlpha "resourceGroup".data = true
      decide
    · rcases List.mem_cons.mp h with h2 | h2
      · rw [h2]
        show pyIsAlpha Char.isAlpha "name".data = true
        decide
      · exact absurd h2 (List.not_mem_nil kv)
  obtain ⟨cs, hcs⟩ := buildClauses_ok hkeys
  refine ⟨azureReshape (api (kqlPrefix.data ++ pyJoin " ".data cs ++ kqlSuffix.data)), ?_⟩
  simp [azureVmListBody, azureVmListOnce, query, hcs]

theorem escapeQuotes_eq_nil_iff {s : List Char} :
    escapeQuotes s = [] ↔ s = [] := by
  cases s with
  | nil => simp [escapeQuotes]
  | cons c rest =>
    constructor
    · intro h
      by_cases hc : c = '\'' <;> simp [escapeQuotes, hc] at h
    · intro h
      cases h

theorem pySplitOn_ne_nil {sep : Char} {s : List Char} : pySplitOn sep s ≠ [] := by
  cases s with
  | nil => simp [pySplitOn]
  | cons c rest =>
    cases hs : pySplitOn sep rest with
    | nil => simp [pySplitOn, hs]
    | cons h t =>
      by_cases hc : c = sep <;> simp [pySplitOn, hs, hc]

theorem pySplitOn_cons_of_ne {sep c : Char} {s h : List Char} {t : List (List Char)}
    (hc : c ≠ sep) (hs : pySplitOn sep s = h :: t) :
    pySplitOn sep (c :: s) = (c :: h) :: t := by
  simp [pySplitOn, hs, hc]

theorem pySplitOn_cons_sep {sep : Char} {s : List Char} :
    pySplitOn sep (sep :: s) = [] :: pySplitOn sep s := by
  cases hs : pySplitOn sep s with
  | nil => exact absurd hs pySplitOn_ne_nil
  | cons h t => simp [pySplitOn, hs]

theorem pySplitOn_escapeQuotes {v : List Char} :
    pySplitOn ',' (escapeQuotes v) = (pySplitOn ',' v).map escapeQuotes := by
  induction v with
  | nil => rfl
  | cons c rest ih =>
    cases hs : pySplitOn ',' rest with
    | nil => exact absurd hs pySplitOn_ne_nil
    | cons h t =>
      have ihc : pySplitOn ',' (escapeQuotes rest) =
          escapeQuotes h :: List.map escapeQuotes t := by
        rw [ih, hs]
        rfl
      by_cases hcm : c = ','
      · subst hcm
        have hq : (',' : Char) ≠ '\'' := by decide
        rw [show escapeQuotes (',' :: rest) = ',' :: escapeQuotes rest from by
          simp [escapeQuotes, hq]]
        rw [pySplitOn_cons_sep, ihc, pySplitOn_cons_sep, hs]
        rfl
      · by_cases hq : c = '\''
        · subst hq
          have hnc : ('\'' : Char) ≠ ',' := by decide
          rw [show escapeQuotes ('\'' :: rest) = '\'' :: '\'' :: escapeQuotes rest from by
            simp [escapeQuotes]]
          rw [pySplitOn_cons_of_ne hnc (pySplitOn_cons_of_ne hnc ihc),
            pySplitOn_cons_of_ne hnc hs]
          simp [escapeQuotes]
        · rw [show escapeQuotes (c :: rest) = c :: escapeQuotes rest from by
            simp [escapeQuotes, hq]]
          rw [pySplitOn_cons_of_ne hcm ihc, pySplitOn_cons_of_ne hcm hs]
          simp [escapeQuotes, hq]

theorem wellEscaped_escapeQuotes {s : List Char} :
    wellEscaped (escapeQuotes s) = true := by
  induction s with
  | nil => rfl
  | cons c rest ih =>
    by_cases hc : c = '\''
    · subst hc
      rw [show escapeQuotes ('\'' :: rest) = '\'' :: '\'' :: escapeQuotes rest from by
        simp [escapeQuotes]]
      simp [wellEscaped, ih]
    · rw [show escapeQuotes (c :: rest) = c :: escapeQuotes rest from by
        simp [escapeQuotes, hc]]
      rw [wellEscaped.eq_def]
      simp [hc, ih]

theorem countQuotes_append {a b : List Char} :
    countQuotes (a ++ b) = countQuotes a + countQuotes b := by
  induction a with
  | nil => simp [countQuotes]
  | cons c rest ih => simp [countQuotes, ih]; omega

theorem countQuotes_escapeQuotes_even {s : List Char} :
    countQuotes (escapeQuotes s) % 2 = 0 := by
  induction s with
  | nil => rfl
  | cons c rest ih =>
    by_cases hc : c = '\''
    · subst hc
      rw [show escapeQuotes ('\'' :: rest) = '\'' :: '\'' :: escapeQuotes rest from by
        simp [escapeQuotes]]
      simp [countQuotes]
      omega
    · rw [show escapeQuotes (c :: rest) = c :: escapeQuotes rest from by
        simp [escapeQuotes, hc]]
      simp [countQuotes, hc]
      omega

theorem countQuotes_pyJoin_even {sep : List Char} {ms : List (List Char)}
    (hsep : countQuotes sep % 2 = 0) (h : ∀ b ∈ ms, countQuotes b % 2 = 0) :
    countQuotes (pyJoin sep ms) % 2 = 0 := by
  induction ms with
  | nil => rfl
  | cons b tail ih =>
    cases tail with
    | nil => exact h b (List.mem_cons_self _ _)
    | cons b2 rest =>
      have hb : countQuotes b % 2 = 0 := h b (List.mem_cons_self _ _)
      have htail : countQuotes (pyJoin sep (b2 :: rest)) % 2 = 0 :=
        ih fun x hx => h x (List.mem_cons_of_mem _ hx)
      rw [show pyJoin sep (b :: b2 :: rest) = b ++ sep ++ pyJoin sep (b2 :: rest) from rfl]
      rw [countQuotes_append, countQuotes_append]
      omega

theorem scanMembers_close_end :
    ∀ b : List Char, wellEscaped b = true → scanMembers true (b ++ ['\'']) = true := by
  intro b
  induction b using wellEscaped.induct with
  | case1 => intro _; rfl
  | case2 => intro h; exact absurd h (by decide)
  | case3 rest2 ih =>
    intro h
    have h2 : wellEscaped rest2 = true := by simpa [wellEscaped] using h
    simpa [scanMembers] using ih h2
  | case4 c2 rest2 hc2 =>
    intro h
    simp [wellEscaped, hc2] at h
  | case5 c2 rest2 hc2 ih =>
    intro h
    have h2 : wellEscaped rest2 = true := by
      rw [wellEscaped.eq_def] at h
      simpa [hc2] using h
    rw [show (c2 :: rest2) ++ ['\''] = c2 :: (rest2 ++ ['\'']) from rfl,
      scanMembers.eq_def]
    simpa [hc2] using ih h2

theorem scanMembers_close_sep :
    ∀ b : List Char, ∀ r : List Char, wellEscaped b = true →
      scanMembers true (b ++ '\'' :: ',' :: r) = scanMembers false r := by
  intro b
  induction b using wellEscaped.induct with
  | case1 =>
    intro r _
    have hnq : ¬((',' : Char) = '\'') := by decide
    simp [scanMembers, hnq]
  | case2 => intro r h; exact absurd h (by decide)
  | case3 rest2 ih =>
    intro r h
    have h2 : wellEscaped rest2 = true := by simpa [wellEscaped] using h
    simpa [scanMembers] using ih r h2
  | case4 c2 rest2 hc2 =>
    intro r h
    simp [wellEscaped, hc2] at h
  | case5 c2 rest2 hc2 ih =>
    intro r h
    have h2 : wellEscaped rest2 = true := by
      rw [wellEscaped.eq_def] at h
      simpa [hc2] using h
    rw [show (c2 :: rest2) ++ '\'' :: ',' :: r = c2 :: (rest2 ++ '\'' :: ',' :: r) from rfl,
      scanMembers.eq_def]
    simpa [hc2] using ih r h2

theorem scanMembers_render :
    ∀ ms : List (List Char), (∀ b ∈ ms, wellEscaped b = true) →
      scanMembers false ('\'' :: pyJoin "','".data ms ++ ['\'']) = true := by
  intro ms
  induction ms with
  | nil => intro _; rfl
  | cons b tail ih =>
    intro h
    have hb : wellEscaped b = true := h b (List.mem_cons_self _ _)
    cases tail with
    | nil =>
      simpa [pyJoin, scanMembers] using scanMembers_close_end b hb
    | cons b2 rest =>
      have hr : scanMembers false ('\'' :: pyJoin "','".data (b2 :: rest) ++ ['\'']) =
          true := ih fun x hx => h x (List.mem_cons_of_mem _ hx)
      have hshape : ('\'' :: pyJoin "','".data (b :: b2 :: rest) ++ ['\'']) =
          '\'' :: (b ++ '\'' :: ',' :: ('\'' :: pyJoin "','".data (b2 :: rest) ++ ['\''])) := by
        show ('\'' :: (b ++ "','".data ++ pyJoin "','".data (b2 :: rest)) ++ ['\'']) = _
        simp
      rw [hshape]
      rw [show scanMembers false
            ('\'' :: (b ++ '\'' :: ',' :: ('\'' :: pyJoin "','".data (b2 :: rest) ++ ['\'']))) =
          scanMembers true
            (b ++ '\'' :: ',' :: ('\'' :: pyJoin "','".data (b2 :: rest) ++ ['\''])) from by
        simp [scanMembers]]
      rw [scanMembers_close_sep b _ hb]
      exact hr

theorem countQuotes_eq_zero {s : List Char} (h : '\'' ∉ s) : countQuotes s = 0 := by
  induction s with
  | nil => rfl
  | cons c rest ih =>
    have hc : c ≠ '\'' := fun hc => h (hc ▸ List.mem_cons_self c rest)
    have hr : '\'' ∉ rest := fun hm => h (List.mem_cons_of_mem c hm)
    simp [countQuotes, fun h2 => hc h2, ih hr]

theorem clauseMembers_eq {value : List Char} :
    (pySplitOn ',' (escapeQuotes value)).filter (· ≠ []) = clauseMembers value := by
  rw [pySplitOn_escapeQuotes, clauseMembers]
  induction pySplitOn ',' value with
  | nil => rfl
  | cons h t ih =>
    by_cases hh : h = []
    · subst hh
      simpa [escapeQuotes] using ih
    · have he : escapeQuotes h ≠ [] := fun hc => hh (escapeQuotes_eq_nil_iff.mp hc)
      simp [List.filter_cons, he, hh]
      simpa using ih

theorem clauseMembers_sound {value : List Char} :
    ∀ b ∈ clauseMembers value, b ≠ [] ∧ wellEscaped b = true := by
  intro b hb
  obtain ⟨x, hx, rfl⟩ := List.mem_map.mp hb
  have hxne : x ≠ [] := by
    have := (List.mem_filter.mp hx).2
    simpa using this
  exact ⟨fun hc => hxne (escapeQuotes_eq_nil_iff.mp hc), wellEscaped_escapeQuotes⟩

/-! ## Claim theorems -/

/-- C1 (code bug): on the spec's own example input — `discover(None)` with a
    CLI list output of one instance `web1` whose `eth0` device carries
    `ipv4.address = 10.0.0.5` — the code yields exactly one record, but its
    attributes are only the identifier: no `ssh_hostname` is recorded, because
    the device loop iterates the `devices` dict's keys (strings) and
    `getattr(<str>, "ipv4.address", None)` is always `None`.  This contradicts
    the claim, the spec and the module's own docstring (incus.py:5). -/
theorem incus_discover_never_records_ipv4 :
    make_names_data "incus".data none
        [⟨"web1".data, some [("eth0".data, [("ipv4.address".data, "10.0.0.5".data)])]⟩] =
      [{ identifier := "@incus/web1".data
         data := [("incus_identifier".data, "web1".data)]
         groups := ["@incus".data] }] := by
  rfl

/-- C2: after any upload or download call — any source kind, any staging
    failure, any transfer outcome — every staging file the call created has
    been deleted when the call returns (normally or by raising). -/
theorem transfer_staging_file_always_deleted :
    ∀ (i : PutInput) (j : GetInput),
      stagingRemains (put_file i).2 = false ∧
      stagingRemains (get_file j).2.1 = false := by
  intro i j
  constructor
  · obtain ⟨sr, osr, wr, pk, ps⟩ := i
    cases sr <;> cases osr <;> cases wr <;> cases pk <;> rfl
  · obtain ⟨pk, ps, st, odr⟩ := j
    cases pk <;> cases odr <;> rfl

/-- C7: `run_shell_command` hands the local executor exactly the argv
    `<cli> exec <-t|-T> <instance> -- sh -c <quoted composed command>` —
    `-t` iff a pseudo-terminal was requested, the interpreter fixed to `sh` —
    forwards the print flags unchanged, and returns the executor's success
    flag and captured output unmodified. -/
theorem incus_run_shell_command_shape :
    ∀ (localRun : List (List Char) → Bool → Bool → Bool × CmdOutput)
      (quote mkUnix : List Char → List Char) (cmd inst command : List Char)
      (getPty printOutput printInput : Bool),
      run_shell_command localRun quote mkUnix cmd inst command getPty
          printOutput printInput =
        localRun
          [cmd, "exec".data, if getPty then "-t".data else "-T".data, inst,
           "--".data, "sh".data, "-c".data, quote (mkUnix command)]
          printOutput printInput := by
  intros
  rfl

/-- C9: the Azure connector's three execution primitives raise
    `NotImplementedError` for every argument list, and the connector declares
    `handles_execution = False`. -/
theorem azure_primitives_not_implemented :
    ∀ {α β : Type} (pos : List α) (kw : List (List Char × β)),
      azure_run_shell_command pos kw = .error .notImplementedError ∧
      azure_put_file pos kw = .error .notImplementedError ∧
      azure_get_file pos kw = .error .notImplementedError ∧
      azureHandlesExecution = false := by
  intros
  exact ⟨rfl, rfl, rfl, rfl⟩

/-- C10: when the CLI `file pull` reports failure (and the destination opens
    normally), `get_file` still opens the caller's destination for binary
    writing and writes the staging file's bytes into it before raising
    `IOError` — the destination is modified on the error path. -/
theorem incus_get_file_writes_destination_on_failure :
    ∀ (stderr staged : List Char),
      get_file ⟨false, stderr, staged, false⟩ =
        (.error (.ioError stderr),
         [.createTemp, .runPull, .openDest, .writeDest, .unlinkTemp],
         some staged) := by
  intros
  rfl

/-- C5: the clause generated for a filter item is the fixed header followed
    by the `in~` set whose members are exactly the quote-doubled non-empty
    comma-separated elements of the value, in order (empty elements and, via
    `buildClauses`, empty values contribute nothing); every member is
    well-escaped (each single quote of the value appears doubled), the
    rendered set parses as a well-formed quoted-literal list, and — the key
    being quote-free — the whole clause has even quote parity. -/
theorem azure_query_value_escaping :
    ∀ key value : List Char,
      whereClause key value =
        "| where ".data ++ key ++ " in~ (".data ++
          ('\'' :: pyJoin "','".data (clauseMembers value) ++ ['\'']) ++ ")".data ∧
      (∀ b ∈ clauseMembers value, b ≠ [] ∧ wellEscaped b = true) ∧
      scanMembers false
        ('\'' :: pyJoin "','".data (clauseMembers value) ++ ['\'']) = true ∧
      ('\'' ∉ key → countQuotes (whereClause key value) % 2 = 0) ∧
      (∀ letter : Char → Bool, pyIsAlpha letter key = true →
        buildClauses letter [(key, [])] = .ok []) := by
  intro key value
  have hw : whereClause key value =
      "| where ".data ++ key ++ " in~ (".data ++
        ('\'' :: pyJoin "','".data (clauseMembers value) ++ ['\'']) ++ ")".data := by
    rw [whereClause, clauseMembers_eq]
    simp
  have hmem := @clauseMembers_sound value
  have hscan : scanMembers false
      ('\'' :: pyJoin "','".data (clauseMembers value) ++ ['\'']) = true :=
    scanMembers_render _ fun b hb => (hmem b hb).2
  refine ⟨hw, hmem, hscan, ?_, ?_⟩
  · intro hk
    rw [hw]
    have hjoin : countQuotes (pyJoin "','".data (clauseMembers value)) % 2 = 0 := by
      refine countQuotes_pyJoin_even (by decide) ?_
      intro b hb
      obtain ⟨x, hx, rfl⟩ := List.mem_map.mp hb
      exact countQuotes_escapeQuotes_even
    have h1 : countQuotes "| where ".data = 0 := by decide
    have h2 : countQuotes key = 0 := countQuotes_eq_zero hk
    have h3 : countQuotes " in~ (".data = 0 := by decide
    have h4 : countQuotes (")".data : List Char) = 0 := by decide
    rw [countQuotes_append, countQuotes_append, countQuotes_append, countQuotes_append]
    rw [show countQuotes ('\'' :: pyJoin "','".data (clauseMembers value) ++ ['\'']) =
        1 + countQuotes (pyJoin "','".data (clauseMembers value) ++ ['\'']) from by
      simp [countQuotes]]
    rw [countQuotes_append]
    rw [h1, h2, h3, h4]
    rw [show countQuotes ['\''] = 1 from by decide]
    omega
  · intro letter hk
    simp [buildClauses, hk]

/-- Witness for C5: the quote-parity and empty-value conjuncts instantiated
    at the alphabetic, quote-free key `location` (with the ASCII classifier)
    and a value with a quote. -/
theorem azure_query_value_escaping_witness :
    countQuotes (whereClause "location".data "a'b,c".data) % 2 = 0 ∧
    buildClauses Char.isAlpha [("location".data, [])] = .ok [] :=
  ⟨(azure_query_value_escaping "location".data "a'b,c".data).2.2.2.1 (by decide),
   (azure_query_value_escaping "location".data "a'b,c".data).2.2.2.2
     Char.isAlpha (by decide)⟩

/-- C6 counterexample: on the target `r:a:b` (two delimiters) the claim says
    the split happens at the FIRST `:` — remote `r`, instance `a:b` — but the
    code splits with `rpartition` at the LAST `:`: remote `r:a:` and instance
    `b`. -/
theorem incus_target_split_cex :
    incusSplitTarget "r:a:b".data = ("r:a:".data, "b".data) ∧
    (incusSplitTarget "r:a:b".data).2 ≠ "a:b".data := by
  decide

/-- C6 amended: parsing splits on the LAST occurrence of `:` (text before it
    is the remote, possibly empty meaning all; text after it is the
    instance), and re-joining the parsed remote (which carries the trailing
    delimiter exactly when non-empty) with the instance reproduces the
    original pattern whenever the parsed remote is non-empty or the pattern
    has no delimiter — i.e. except for patterns `:instance` whose only
    delimiter is leading, where the delimiter is dropped. -/
theorem incus_target_split_last :
    ∀ s : List Char,
      (':' ∈ s →
        s = (pyRPartition2 ':' s).1 ++ ':' :: (pyRPartition2 ':' s).2 ∧
        ':' ∉ (pyRPartition2 ':' s).2) ∧
      (':' ∉ s → pyRPartition2 ':' s = ([], s)) ∧
      ((incusSplitTarget s).1 ≠ [] ∨ ':' ∉ s →
        (incusSplitTarget s).1 ++ (incusSplitTarget s).2 = s) := by
  intro s
  refine ⟨fun h => pyRPartition2_of_mem h, fun h => pyRPartition2_of_not_mem h, ?_⟩
  intro hcond
  rcases hcond with hne | hnm
  · by_cases hm : ':' ∈ s
    · obtain ⟨h1, _⟩ := pyRPartition2_of_mem hm
      unfold incusSplitTarget at *
      by_cases hh : (pyRPartition2 ':' s).1 = []
      · simp [hh] at hne
      · simp only [hh, ne_eq, not_false_eq_true, if_true]
        conv_rhs => rw [h1]
        simp
    · have hz := pyRPartition2_of_not_mem hm
      unfold incusSplitTarget
      simp [hz]
  · have hz := pyRPartition2_of_not_mem hnm
    unfold incusSplitTarget
    simp [hz]

/-- Witness for C6: the amended split and round-trip at the documented
    example target `example:foo` of incus.py:95. -/
theorem incus_target_split_last_witness :
    ("example:foo".data =
        (pyRPartition2 ':' "example:foo".data).1 ++
          ':' :: (pyRPartition2 ':' "example:foo".data).2 ∧
      ':' ∉ (pyRPartition2 ':' "example:foo".data).2) ∧
    (incusSplitTarget "example:foo".data).1 ++
        (incusSplitTarget "example:foo".data).2 = "example:foo".data :=
  ⟨(incus_target_split_last "example:foo".data).1 (by decide),
   (incus_target_split_last "example:foo".data).2.2 (Or.inl (by decide))⟩

/-- C8: `_parse_name` maps `None` and the empty pattern to two empty filters;
    a pattern with a slash is split at its FIRST slash into (groups, hosts),
    either side possibly empty; a pattern without a slash becomes a host-only
    filter (its groups filter is empty, and stripping a leading separator from
    a slash-free pattern changes nothing). -/
theorem azure_parse_name_spec :
    parse_name none = ([], []) ∧
    parse_name (some []) = ([], []) ∧
    (∀ s : List Char, '/' ∈ s →
      s = (parse_name (some s)).1 ++ '/' :: (parse_name (some s)).2 ∧
      '/' ∉ (parse_name (some s)).1) ∧
    (∀ s : List Char, '/' ∉ s → parse_name (some s) = ([], s)) := by
  refine ⟨rfl, rfl, ?_, ?_⟩
  · intro s hs
    have hc : s.contains '/' = true := List.elem_eq_true_of_mem hs
    have hp : parse_name (some s) = pyPartition2 '/' s := by
      rw [show parse_name (some s) =
          if s.contains '/' then pyPartition2 '/' s
          else ([], pyRemoveprefix "/".data s) from rfl, hc]
      simp
    rw [hp]
    exact pyPartition2_of_mem hs
  · intro s hs
    have hc : s.contains '/' = false := by simpa using hs
    have hrp : pyRemoveprefix "/".data s = s := by
      cases s with
      | nil => rfl
      | cons c rest =>
        have hcn : ¬('/' = c) := fun h => hs (h ▸ List.mem_cons_self c rest)
        simp [ pyRemoveprefix, List.isPrefixOf, hcn]
    rw [show parse_name (some s) =
        if s.contains '/' then pyPartition2 '/' s
        else ([], pyRemoveprefix "/".data s) from rfl, hc]
    simp [hrp]

/-- Witness for C8: the two documented patterns of microsoft_azure.py:125-127
    — `dev,prod/webserver` (slash) and `db,webserver` (slash-free). -/
theorem azure_parse_name_spec_witness :
    ("dev,prod/webserver".data =
        (parse_name (some "dev,prod/webserver".data)).1 ++
          '/' :: (parse_name (some "dev,prod/webserver".data)).2 ∧
      '/' ∉ (parse_name (some "dev,prod/webserver".data)).1) ∧
    parse_name (some "db,webserver".data) = ([], "db,webserver".data) :=
  ⟨azure_parse_name_spec.2.2.1 "dev,prod/webserver".data (by decide),
   azure_parse_name_spec.2.2.2 "db,webserver".data (by decide)⟩

end Carryall
